import Mathlib

/-!
Verification of the fetch-filter-commit pipeline of the `rusted` device
configuration backup tool, as a shallow embedding of `src/devices.rs` and
`src/main.rs`.

Text is modelled as `List Char` (Rust `String`/`&str` is UTF-8 text; the
claims under study only depend on the character sequence). Raw process
output is modelled as `List Nat` (bytes). Machine integers (`usize`) are
modelled as `Nat` with explicit wrap-around modulo `2 ^ 64` where the code
can overflow. Compiled regexes are modelled as opaque matcher/replacer
functions, since the filter algorithm never inspects a regex beyond calling
`is_match` and `replace_all`; a literal-pattern regex engine is provided to
evaluate the spec's concrete examples.
-/

namespace Rusted

/-- Splits a character list at every newline character, mirroring the
splitting step of Rust `str::lines` (before `\r` stripping and before the
optional final empty segment is dropped). `splitNl []` is `[[]]`. -/
def splitNl : List Char → List (List Char)
  | [] => [[]]
  | c :: rest =>
      if c = '\n' then [] :: splitNl rest
      else
        match splitNl rest with
        | [] => [[c]]
        | l :: ls => (c :: l) :: ls

/-- Removes a single trailing carriage return, as Rust `str::lines` does to
each segment so that `\r\n` terminators behave like `\n`. -/
def stripCR (l : List Char) : List Char :=
  match l.reverse with
  | '\r' :: rest => rest.reverse
  | _ => l

/-- Drops the final segment produced by `splitNl` when it is empty: Rust
`str::lines` yields no final empty line for input ending in a newline, and
yields nothing at all for empty input. -/
def dropLastEmpty (ls : List (List Char)) : List (List Char) :=
  if ls.getLast? = some [] then ls.dropLast else ls

/-- Model of Rust `str::lines`: split at `\n`, treat `\r\n` as a line
terminator, no trailing empty line for input ending in a newline. -/
def rustLines (s : List Char) : List (List Char) :=
  (dropLastEmpty (splitNl s)).map stripCR

/-- Model of Rust `str::trim_end`: removes trailing whitespace from a line
(ASCII whitespace; the claims do not involve non-ASCII whitespace). -/
def rustTrimEnd (l : List Char) : List Char :=
  (l.reverse.dropWhile Char.isWhitespace).reverse

/-- Model of Rust `slice::join("\n")`: concatenates lines with a single
newline separator between consecutive lines. -/
def joinLines : List (List Char) → List Char
  | [] => []
  | [l] => l
  | l :: l2 :: ls => l ++ '\n' :: joinLines (l2 :: ls)

/-- Wrapping `usize` subtraction, the release-build semantics of
`a - b` on `usize` in Rust (the filter computes
`lines.len() - trim_lines_tail`, which wraps when the tail count exceeds
the number of lines). Faithful for `b < 2 ^ 64`. -/
def usizeSub (a b : Nat) : Nat :=
  (a + 2 ^ 64 - b) % 2 ^ 64

/-- A compiled regex, abstracted to the two operations the filter uses:
`Regex::is_match` on a line, and `Regex::replace_all` on a line with a
replacement string. -/
structure Regex where
  isMatch : List Char → Bool
  replaceAll : List Char → List Char → List Char

/-- Tests whether `p` occurs at the start of the second list. -/
def startsWithCL : List Char → List Char → Bool
  | [], _ => true
  | _ :: _, [] => false
  | p :: ps, c :: cs => p = c && startsWithCL ps cs

/-- Tests whether `p` occurs as a contiguous run anywhere in `s`; this is
`Regex::is_match` for a pattern with no metacharacters. -/
def containsPat (p : List Char) : List Char → Bool
  | [] => startsWithCL p []
  | c :: cs => startsWithCL p (c :: cs) || containsPat p cs

/-- Fuel-indexed scan for `replaceAllLit`; the fuel only makes the
recursion structural and is always sufficient when it starts at the length
of the scanned list. -/
def replaceAllLitAux (pat rep : List Char) : Nat → List Char → List Char
  | _, [] => []
  | 0, s => s
  | fuel + 1, c :: cs =>
      if pat.isEmpty = false && startsWithCL pat (c :: cs) then
        rep ++ replaceAllLitAux pat rep fuel (cs.drop (pat.length - 1))
      else c :: replaceAllLitAux pat rep fuel cs

/-- Leftmost, non-overlapping replacement of every occurrence of the
literal pattern `pat` by `rep`; this is `Regex::replace_all` for a pattern
with no metacharacters (assuming `pat` is nonempty). -/
def replaceAllLit (pat rep s : List Char) : List Char :=
  replaceAllLitAux pat rep s.length s

/-- The regex compiled from a literal pattern (no metacharacters). -/
def litRegex (pat : List Char) : Regex :=
  { isMatch := containsPat pat
    replaceAll := fun line rep => replaceAllLit pat rep line }

/-- A regex engine that accepts every pattern and treats it literally;
used to instantiate the abstract `Regex::new` for the spec's examples,
whose patterns contain no metacharacters. -/
def litCompile (pat : List Char) : Option Regex :=
  some (litRegex pat)

/-- The `Filter` struct of `devices.rs`: user-supplied filter
configuration, with patterns still in source (string) form. -/
structure Filter where
  trim_lines_head : Nat
  trim_lines_tail : Nat
  filter_patterns : List (List Char)
  replace_patterns : List (List Char × List Char)

/-- The state captured by the filter closure returned by
`DeviceConfig::to_filter`: trim counts plus the compiled removal regexes
and compiled replacement pairs. -/
structure CompiledFilter where
  trim_lines_head : Nat
  trim_lines_tail : Nat
  filter_regexes : List Regex
  replacements : List (Regex × List Char)

/-- The replacement step of the filter closure: every `(regex, replacement)`
pair is applied in listed order, each operating on the line as already
transformed by the prior pairs. -/
def applyReplacements (replacements : List (Regex × List Char))
    (line : List Char) : List Char :=
  replacements.foldl (fun l p => p.1.replaceAll l p.2) line

/-- The removal test of the filter closure: a line is kept when it matches
none of the removal regexes. -/
def keptLine (filter_regexes : List Regex) (line : List Char) : Bool :=
  !filter_regexes.any (fun re => re.isMatch line)

/-- The `lines` vector computed inside the filter closure of
`DeviceConfig::to_filter`: split into lines, drop `trim_lines_head` lines,
apply the replacements to each line, drop lines matching a removal regex,
and trim trailing whitespace from each remaining line. -/
def survivingLines (f : CompiledFilter) (raw : List Char) : List (List Char) :=
  ((((rustLines raw).drop f.trim_lines_head).map
      (applyReplacements f.replacements)).filter
      (keptLine f.filter_regexes)).map rustTrimEnd

/-- The lines kept after tail trimming, i.e. the slice
`lines[..lines.len() - trim_lines_tail]` when that range is in bounds. -/
def keptLines (f : CompiledFilter) (raw : List Char) : List (List Char) :=
  (survivingLines f raw).take
    (usizeSub (survivingLines f raw).length f.trim_lines_tail)

/-- The filter closure returned by `DeviceConfig::to_filter`. Returns the
filtered text together with a flag recording whether the
`no lines remain after trimming` diagnostic was emitted (the
`unwrap_or_else` branch, taken exactly when `lines.get(..)` is `None`). -/
def applyFilter (f : CompiledFilter) (raw : List Char) : List Char × Bool :=
  let lines := survivingLines f raw
  let k := usizeSub lines.length f.trim_lines_tail
  if k ≤ lines.length then (joinLines (lines.take k), false)
  else ([], true)

/-- The `DeviceConfig` struct of `devices.rs`: all device specific
parameters plus the optional `Filter`. -/
structure DeviceConfig where
  host : List Char
  model : List Char
  user : List Char
  password_file : List Char
  cipher : Option (List Char)
  kexalgorithm : Option (List Char)
  hostkeyalgorithm : Option (List Char)
  extra_expect_params : List (List Char)
  filter_config : Option Filter

/-- Compiles every pattern in the list with the given regex engine
(modelling `Regex::new`), failing with the first pattern the engine
rejects — the short-circuiting `collect::<Result<Vec<_>>>()` in
`DeviceConfig::to_filter`. -/
def compileAll (compile : List Char → Option Regex) :
    List (List Char) → Except (List Char) (List Regex)
  | [] => .ok []
  | p :: ps =>
      match compile p with
      | none => .error p
      | some re => (compileAll compile ps).map (re :: ·)

/-- Compiles every `(pattern, replacement)` pair, failing with the first
pattern the engine rejects. -/
def compileReplacements (compile : List Char → Option Regex) :
    List (List Char × List Char) → Except (List Char) (List (Regex × List Char))
  | [] => .ok []
  | pr :: prs =>
      match compile pr.1 with
      | none => .error pr.1
      | some re => (compileReplacements compile prs).map ((re, pr.2) :: ·)

/-- Model of `DeviceConfig::to_filter`, parameterized by the regex engine
`compile` (the `Regex::new` collaborator; `none` means the pattern fails to
compile). Returns `Except.ok none` when no filter is configured, the
compiled filter state when compilation succeeds, and the first offending
pattern on compilation failure. -/
def to_filter (compile : List Char → Option Regex) (d : DeviceConfig) :
    Except (List Char) (Option CompiledFilter) :=
  match d.filter_config with
  | none => .ok none
  | some fc =>
      match compileAll compile fc.filter_patterns with
      | .error p => .error p
      | .ok filter_regexes =>
          match compileReplacements compile fc.replace_patterns with
          | .error p => .error p
          | .ok replacements =>
              .ok (some
                { trim_lines_head := fc.trim_lines_head
                  trim_lines_tail := fc.trim_lines_tail
                  filter_regexes := filter_regexes
                  replacements := replacements })

/-- Model of `DeviceConfig::into_expect_args`: the argument vector passed
to the expect script. -/
def into_expect_args (d : DeviceConfig) : List (List Char) :=
  ([d.user, d.password_file, d.host] ++
    ([d.kexalgorithm, d.cipher, d.hostkeyalgorithm].filterMap id)) ++
    d.extra_expect_params

/-- Path of the expect script for a device:
the scripts directory, a slash, the model name, and the `.exp` suffix. -/
def script_path (scripts_dir : List Char) (d : DeviceConfig) : List Char :=
  (scripts_dir ++ ['/']) ++ (d.model ++ ".exp".data)

/-- Outcome of spawning a subprocess and waiting for it: either the spawn
itself fails, or the process runs to completion with an exit status flag
and captured standard output and standard error (as raw bytes). -/
inductive SpawnResult where
  | launchFailure
  | ran (success : Bool) (stdout stderr : List Nat)

/-- The failure cases of `DeviceConfig::into_filtered_dump` (in the source
these are `anyhow` errors; the variants follow the contexts attached at
each failure site). -/
inductive FetchError where
  | PatternError (pattern : List Char)
  | LaunchFailed (path : List Char)
  | ScriptFailed (path : List Char) (stderr : List Nat)
  | InvalidOutput

/-- Model of `DeviceConfig::into_filtered_dump`, parameterized by the regex
engine `compile`, the subprocess collaborator `spawn` (mapping a script
path and argument list to a `SpawnResult`) and the UTF-8 decoder `decode`
(modelling `core::str::from_utf8`, which on success is the identity on the
underlying bytes: the decoded text's bytes are exactly the input bytes). -/
def into_filtered_dump (compile : List Char → Option Regex)
    (spawn : List Char → List (List Char) → SpawnResult)
    (decode : List Nat → Option (List Char))
    (scripts_dir : List Char) (d : DeviceConfig) :
    Except FetchError (List Char) :=
  let path := script_path scripts_dir d
  match to_filter compile d with
  | .error p => .error (.PatternError p)
  | .ok maybe_filter =>
      match spawn path (into_expect_args d) with
      | .launchFailure => .error (.LaunchFailed path)
      | .ran ok out err =>
          if ok then
            match decode out with
            | none => .error .InvalidOutput
            | some stdout_str =>
                .ok (match maybe_filter with
                  | none => stdout_str
                  | some f => (applyFilter f stdout_str).1)
          else .error (.ScriptFailed path err)

/-- Failure cases of one per-device fetch unit
(`update_device_config_file` in `main.rs`). -/
inductive UnitError where
  | TryExistsFailed
  | StateDirMissing (state_dir : List Char)
  | Fetch (e : FetchError)
  | WriteFailed

/-- Model of `update_device_config_file` in `main.rs`. The filesystem and
subprocess collaborators are abstracted: `tryExists` is the outcome of
`Path::try_exists` on the state directory (`none` when the check itself
errors), `dump` is the outcome the device's `into_filtered_dump` would
produce if invoked, and `writeOk` is whether the file write succeeds. The
returned `Bool` records whether the expect script was actually invoked
(i.e. whether control reached `into_filtered_dump`). -/
def update_device_config_file (tryExists : Option Bool)
    (state_dir : List Char) (dump : Except FetchError (List Char))
    (writeOk : Bool) : Bool × Except UnitError (List Char) :=
  match tryExists with
  | none => (false, .error .TryExistsFailed)
  | some false => (false, .error (.StateDirMissing state_dir))
  | some true =>
      match dump with
      | .error e => (true, .error (.Fetch e))
      | .ok d => (true, if writeOk then .ok d else .error .WriteFailed)

/-- One invocation of the `git` binary: subcommand, working directory and
further arguments, as assembled by `git_subcommand` in `main.rs`. -/
structure GitCmd where
  subcmd : List Char
  workdir : List Char
  args : List (List Char)
deriving DecidableEq

/-- Failure cases of `git_subcommand`. -/
inductive GitError where
  | LaunchFailed
  | CommandFailed (stderr stdout : List Nat)
  | OutputNotUtf8
  | Impossible

/-- Model of `git_subcommand` in `main.rs`, parameterized by the `git`
collaborator (mapping an assembled command to its `SpawnResult`) and the
UTF-8 decoder. Standard output is decoded and returned only when
`with_output` is set. -/
def git_subcommand (git : GitCmd → SpawnResult)
    (decode : List Nat → Option (List Char)) (subcmd workdir : List Char)
    (args : List (List Char)) (with_output : Bool) :
    Except GitError (Option (List Char)) :=
  match git ⟨subcmd, workdir, args⟩ with
  | .launchFailure => .error .LaunchFailed
  | .ran ok out err =>
      if ok then
        if with_output then
          match decode out with
          | none => .error .OutputNotUtf8
          | some s => .ok (some s)
        else .ok none
      else .error (.CommandFailed err out)

/-- The `git ls-files` argument vector of `update_git_repo`. -/
def lsArgs : List (List Char) :=
  ["--modified".data, "--others".data, "--exclude-standard".data]

/-- The change-enumeration command issued by `update_git_repo`. -/
def lsCmd (state_dir : List Char) : GitCmd :=
  ⟨"ls-files".data, state_dir, lsArgs⟩

/-- The staging command issued for one changed file. -/
def addCmd (state_dir f : List Char) : GitCmd :=
  ⟨"add".data, state_dir, [f]⟩

/-- The commit command issued for one changed file, with message
`Update ` followed by the file name. -/
def commitCmd (state_dir f : List Char) : GitCmd :=
  ⟨"commit".data, state_dir, ["--message".data, "Update ".data ++ f]⟩

/-- The push command issued when pushing is not suppressed. -/
def pushCmd (state_dir : List Char) : GitCmd :=
  ⟨"push".data, state_dir, []⟩

/-- The per-file loop of `update_git_repo`: stage then commit each changed
file in enumeration order, aborting at the first failing git command.
Returns the trace of issued git commands together with the result. -/
def commitFiles (git : GitCmd → SpawnResult)
    (decode : List Nat → Option (List Char)) (state_dir : List Char) :
    List (List Char) → List GitCmd × Except GitError Unit
  | [] => ([], .ok ())
  | f :: fs =>
      match git_subcommand git decode "add".data state_dir [f] false with
      | .error e => ([addCmd state_dir f], .error e)
      | .ok _ =>
          match git_subcommand git decode "commit".data state_dir
              ["--message".data, "Update ".data ++ f] false with
          | .error e => ([addCmd state_dir f, commitCmd state_dir f], .error e)
          | .ok _ =>
              let r := commitFiles git decode state_dir fs
              (addCmd state_dir f :: commitCmd state_dir f :: r.1, r.2)

/-- The optional push step at the end of `update_git_repo`. -/
def pushPhase (git : GitCmd → SpawnResult)
    (decode : List Nat → Option (List Char)) (state_dir : List Char)
    (no_push : Bool) : List GitCmd × Except GitError Unit :=
  if no_push then ([], .ok ())
  else
    match git_subcommand git decode "push".data state_dir [] false with
    | .error e => ([pushCmd state_dir], .error e)
    | .ok _ => ([pushCmd state_dir], .ok ())

/-- Model of `update_git_repo` in `main.rs`: enumerate changed files with
`git ls-files --modified --others --exclude-standard`, then for each
enumerated file (in enumeration order) stage it and commit it with message
`Update ` followed by the file name, then push unless `no_push` is set;
every failing git command aborts all remaining steps. Returns the ordered
trace of issued git commands together with the result. -/
def update_git_repo (git : GitCmd → SpawnResult)
    (decode : List Nat → Option (List Char)) (state_dir : List Char)
    (no_push : Bool) : List GitCmd × Except GitError Unit :=
  match git_subcommand git decode "ls-files".data state_dir lsArgs true with
  | .error e => ([lsCmd state_dir], .error e)
  | .ok none => ([lsCmd state_dir], .error .Impossible)
  | .ok (some changed_files) =>
      let c := commitFiles git decode state_dir (rustLines changed_files)
      match c.2 with
      | .error e => (lsCmd state_dir :: c.1, .error e)
      | .ok _ =>
          let p := pushPhase git decode state_dir no_push
          (lsCmd state_dir :: (c.1 ++ p.1), p.2)

/-- Whether any per-device fetch unit failed (`tasks_failed` in `main`). -/
def anyFailed (devres : List (Except UnitError (List Char))) : Bool :=
  devres.any (fun r => match r with | .error _ => true | .ok _ => false)

/-- Whether a result is a failure. -/
def exceptFailed {ε α : Type} : Except ε α → Bool
  | .error _ => true
  | .ok _ => false

/-- Model of the tail of `main` in `main.rs`: after all fetch units have
finished with results `devres`, the commit phase (`update_git_repo`) is
run unconditionally, and the process exit is successful exactly when the
commit phase succeeded and no fetch unit failed. Returns the git command
trace together with the exit-success flag. -/
def runMain (devres : List (Except UnitError (List Char)))
    (git : GitCmd → SpawnResult) (decode : List Nat → Option (List Char))
    (state_dir : List Char) (no_push : Bool) : List GitCmd × Bool :=
  let tasks_failed := anyFailed devres
  let g := update_git_repo git decode state_dir no_push
  match g.2 with
  | .error _ => (g.1, false)
  | .ok _ => (g.1, !tasks_failed)

/-- Whether a spawn outcome is a successful run (exit status success). -/
def gitOk : SpawnResult → Bool
  | .ran true _ _ => true
  | _ => false

/-- The device of the spec's worked example: `trim_head = 1`,
`trim_tail = 1`, removal pattern `L3`, replace rule `L → X`. -/
def exampleDevice : DeviceConfig :=
  { host := "h".data
    model := "m".data
    user := "u".data
    password_file := "p".data
    cipher := none
    kexalgorithm := none
    hostkeyalgorithm := none
    extra_expect_params := []
    filter_config := some
      { trim_lines_head := 1
        trim_lines_tail := 1
        filter_patterns := ["L3".data]
        replace_patterns := [("L".data, "X".data)] } }

/-- A device with no Filter Spec, for concrete instances. -/
def plainDevice : DeviceConfig :=
  { host := "h1".data
    model := "mod".data
    user := "u1".data
    password_file := "pf".data
    cipher := none
    kexalgorithm := some "kex".data
    hostkeyalgorithm := none
    extra_expect_params := ["x".data]
    filter_config := none }

lemma two_pow_64_eq : 2 ^ 64 = 18446744073709551616 := by norm_num

lemma usizeSub_of_le {a b : Nat} (ha : a < 2 ^ 64) (hba : b ≤ a) :
    usizeSub a b = a - b := by
  unfold usizeSub
  rw [two_pow_64_eq] at ha ⊢
  omega

lemma usizeSub_gt {a b : Nat} (hb : b < 2 ^ 64) (hab : a < b) :
    a < usizeSub a b := by
  unfold usizeSub
  rw [two_pow_64_eq] at hb ⊢
  omega

lemma applyFilter_of_le (f : CompiledFilter) (raw : List Char)
    (h : usizeSub (survivingLines f raw).length f.trim_lines_tail ≤
      (survivingLines f raw).length) :
    applyFilter f raw = (joinLines (keptLines f raw), false) := by
  simp only [applyFilter, keptLines, if_pos h]

lemma applyFilter_of_gt (f : CompiledFilter) (raw : List Char)
    (h : (survivingLines f raw).length <
      usizeSub (survivingLines f raw).length f.trim_lines_tail) :
    applyFilter f raw = ([], true) := by
  simp only [applyFilter, if_neg (Nat.not_le.mpr h)]

lemma applyFilter_eq_empty_of_tail_ge (f : CompiledFilter) (raw : List Char)
    (ht : f.trim_lines_tail < 2 ^ 64)
    (hge : (survivingLines f raw).length ≤ f.trim_lines_tail) :
    (applyFilter f raw).1 = [] := by
  rcases Nat.lt_or_ge (survivingLines f raw).length f.trim_lines_tail with
    hlt | hge2
  · rw [applyFilter_of_gt f raw (usizeSub_gt ht hlt)]
  · have heq : (survivingLines f raw).length = f.trim_lines_tail :=
      Nat.le_antisymm hge hge2
    have hk : usizeSub (survivingLines f raw).length f.trim_lines_tail = 0 := by
      rw [usizeSub_of_le (heq ▸ ht) (Nat.le_of_eq heq.symm)]
      omega
    rw [applyFilter_of_le f raw (hk ▸ Nat.zero_le _)]
    simp [keptLines, hk, joinLines]

/-- C1 (corrected): if `trim_lines_tail` is at least the number of lines
surviving after head trimming, replacement, removal filtering and
whitespace trimming, `apply` returns the empty string and the operation
still succeeds (the filter closure is total and raises no error); the
`no lines remain after trimming` diagnostic, however, is emitted exactly
when `trim_lines_tail` is strictly greater than the number of surviving
lines — at exact equality the result is empty with no diagnostic. -/
theorem c1_empty_result_amended (f : CompiledFilter) (raw : List Char)
    (ht : f.trim_lines_tail < 2 ^ 64)
    (hge : (survivingLines f raw).length ≤ f.trim_lines_tail) :
    (applyFilter f raw).1 = [] ∧
      ((applyFilter f raw).2 = true ↔
        (survivingLines f raw).length < f.trim_lines_tail) := by
  refine ⟨applyFilter_eq_empty_of_tail_ge f raw ht hge, ?_⟩
  rcases Nat.lt_or_ge (survivingLines f raw).length f.trim_lines_tail with
    hlt | hge2
  · rw [applyFilter_of_gt f raw (usizeSub_gt ht hlt)]
    simp [hlt]
  · have heq : (survivingLines f raw).length = f.trim_lines_tail :=
      Nat.le_antisymm hge hge2
    have hk : usizeSub (survivingLines f raw).length f.trim_lines_tail = 0 := by
      rw [usizeSub_of_le (heq ▸ ht) (Nat.le_of_eq heq.symm)]
      omega
    rw [applyFilter_of_le f raw (hk ▸ Nat.zero_le _)]
    simp [heq]

/-- C1 counterexample: with `trim_lines_tail = 1` and the single-line input
`a`, the tail count equals the number of surviving lines, the result is
the empty string, yet no diagnostic is emitted — refuting the claim that a
diagnostic is emitted whenever `trim_tail` is greater than *or equal to*
the number of surviving lines. -/
theorem c1_counterexample :
    (survivingLines ⟨0, 1, [], []⟩ "a".data).length ≤ 1 ∧
      applyFilter ⟨0, 1, [], []⟩ "a".data = ([], false) := by
  decide

/-- C1 witness: concrete instance of `c1_empty_result_amended` with
`trim_lines_tail = 2` and one surviving line. -/
theorem c1_witness :
    (applyFilter ⟨0, 2, [], []⟩ "b".data).1 = [] ∧
      ((applyFilter ⟨0, 2, [], []⟩ "b".data).2 = true ↔
        (survivingLines ⟨0, 2, [], []⟩ "b".data).length < 2) :=
  c1_empty_result_amended ⟨0, 2, [], []⟩ "b".data (by norm_num) (by decide)

/-- C2: for a compiled filter with head count `h` and tail count `t` and an
`L`-line input in which no line matches any removal pattern after
replacement: when `h + t < L` the result is the newline-join of exactly
`L - h - t` lines, and when `h + t ≥ L` the result is the empty string. -/
theorem c2_surviving_line_count (f : CompiledFilter) (raw : List Char)
    (ht : f.trim_lines_tail < 2 ^ 64)
    (hL : (rustLines raw).length < 2 ^ 64)
    (hkeep : ∀ line ∈ ((rustLines raw).drop f.trim_lines_head).map
        (applyReplacements f.replacements),
      keptLine f.filter_regexes line = true) :
    (f.trim_lines_head + f.trim_lines_tail < (rustLines raw).length →
      ∃ ls : List (List Char),
        ls.length =
          (rustLines raw).length - f.trim_lines_head - f.trim_lines_tail ∧
        (applyFilter f raw).1 = joinLines ls) ∧
    ((rustLines raw).length ≤ f.trim_lines_head + f.trim_lines_tail →
      (applyFilter f raw).1 = []) := by
  have hsur : survivingLines f raw =
      (((rustLines raw).drop f.trim_lines_head).map
        (applyReplacements f.replacements)).map rustTrimEnd := by
    unfold survivingLines
    rw [List.filter_eq_self.mpr hkeep]
  have hn : (survivingLines f raw).length =
      (rustLines raw).length - f.trim_lines_head := by
    rw [hsur]
    simp [List.length_map, List.length_drop]
  constructor
  · intro hlt
    have htn : f.trim_lines_tail < (survivingLines f raw).length := by omega
    have hk : usizeSub (survivingLines f raw).length f.trim_lines_tail =
        (survivingLines f raw).length - f.trim_lines_tail :=
      usizeSub_of_le (by omega) (Nat.le_of_lt htn)
    rw [applyFilter_of_le f raw (by omega)]
    refine ⟨keptLines f raw, ?_, rfl⟩
    unfold keptLines
    rw [hk]
    simp only [List.length_take]
    omega
  · intro hge2
    exact applyFilter_eq_empty_of_tail_ge f raw ht (by omega)

/-- C2 witness: concrete instance of `c2_surviving_line_count` with
`trim_lines_head = 1`, `trim_lines_tail = 1` and a four-line input. -/
theorem c2_witness :
    ∃ ls : List (List Char),
      ls.length = 2 ∧
      (applyFilter ⟨1, 1, [], []⟩ "a\nb\nc\nd".data).1 = joinLines ls :=
  (c2_surviving_line_count ⟨1, 1, [], []⟩ "a\nb\nc\nd".data (by norm_num)
    (by decide) (by decide)).1 (by decide)

/-- C3: replacement rules are applied to each line in listed order, each
rule operating on the line as already transformed by the prior rules, and
removal matching is evaluated afterwards against the post-replacement
line; in particular the compiled filter of `exampleDevice` maps the input
`L1\nL2\nL3\nL4\nL5` to `X2\nX3\nX4` without emitting a diagnostic (the
removal pattern `L3` no longer matches the rewritten line `X3`). -/
theorem c3_replacement_order :
    (∀ (p q : Regex × List Char) (line : List Char),
      applyReplacements [p, q] line =
        q.1.replaceAll (p.1.replaceAll line p.2) q.2) ∧
    (to_filter litCompile exampleDevice).map (Option.map fun cf =>
        applyFilter cf "L1\nL2\nL3\nL4\nL5".data) =
      .ok (some ("X2\nX3\nX4".data, false)) := by
  exact ⟨fun p q line => rfl, rfl⟩

lemma head?_dropWhile {α : Type} (p : α → Bool) :
    ∀ (l : List α) (a : α), (l.dropWhile p).head? = some a → p a = false
  | [], a, h => by simp [List.dropWhile] at h
  | x :: xs, a, h => by
      rw [List.dropWhile_cons] at h
      by_cases hx : p x = true
      · rw [if_pos hx] at h
        exact head?_dropWhile p xs a h
      · rw [if_neg hx] at h
        simp only [List.head?_cons, Option.some.injEq] at h
        subst h
        exact Bool.eq_false_iff.mpr hx

lemma rustTrimEnd_getLast? (l : List Char) (c : Char)
    (h : (rustTrimEnd l).getLast? = some c) : c.isWhitespace = false := by
  unfold rustTrimEnd at h
  rw [List.getLast?_reverse] at h
  exact head?_dropWhile Char.isWhitespace _ c h

lemma joinLines_getLast? :
    ∀ (ls : List (List Char)) (l : List Char), ls.getLast? = some l →
      l ≠ [] → (joinLines ls).getLast? = l.getLast?
  | [], l, h, _ => by simp at h
  | [x], l, h, _ => by
      have hx : x = l := by simpa using h
      subst hx
      rfl
  | x :: y :: ls, l, h, hne => by
      rw [List.getLast?_cons_cons] at h
      have ih := joinLines_getLast? (y :: ls) l h hne
      have hsome : l.getLast?.isSome := by
        rw [List.getLast?_isSome]
        exact hne
      obtain ⟨c, hc⟩ := Option.isSome_iff_exists.mp hsome
      rw [hc] at ih
      obtain ⟨ys, hys⟩ := List.getLast?_eq_some_iff.mp ih
      show (x ++ '\n' :: joinLines (y :: ls)).getLast? = l.getLast?
      rw [hys, hc]
      have hassoc : x ++ '\n' :: (ys ++ [c]) = (x ++ '\n' :: ys) ++ [c] := by
        simp
      rw [hassoc, List.getLast?_concat]

/-- C10 counterexample: for the all-default filter and the raw input
`a` followed by two newlines, the last surviving line is empty and the
filtered output is `a` followed by a newline — the output *does* end with
a newline character, refuting the claim that it never does. -/
theorem c10_counterexample :
    (applyFilter ⟨0, 0, [], []⟩ "a\n\n".data).1.getLast? = some ('\n') := by
  decide

/-- C10 (corrected): the filter's output ends with a newline character
only when the last line kept after tail trimming is empty — whenever that
last kept line is nonempty (in particular whenever the input has no empty
lines), the output does not end with a newline. The rest of the claim
stands: `apply` is not the identity even for an all-default Filter Spec,
since a trailing final newline of the raw input is removed and `\r\n` line
terminators become `\n` (and trailing whitespace of each line is
trimmed). -/
theorem c10_trailing_newline_amended :
    (∀ (f : CompiledFilter) (raw : List Char),
      (keptLines f raw).getLast? ≠ some [] →
      (applyFilter f raw).1.getLast? ≠ some ('\n')) ∧
    applyFilter ⟨0, 0, [], []⟩ "l1\r\nl2 \n".data = ("l1\nl2".data, false) ∧
    "l1\r\nl2 \n".data ≠ "l1\nl2".data := by
  refine ⟨?_, by decide, by decide⟩
  intro f raw hne hcontra
  rcases Nat.lt_or_ge (survivingLines f raw).length
      (usizeSub (survivingLines f raw).length f.trim_lines_tail) with hgt | hge
  · rw [applyFilter_of_gt f raw hgt] at hcontra
    simp at hcontra
  · rw [applyFilter_of_le f raw hge] at hcontra
    simp only at hcontra
    cases hkept : keptLines f raw with
    | nil =>
        rw [hkept] at hcontra
        simp [joinLines] at hcontra
    | cons a as =>
        have hs : (keptLines f raw).getLast?.isSome := by
          rw [List.getLast?_isSome, hkept]
          simp
        obtain ⟨l, hl⟩ := Option.isSome_iff_exists.mp hs
        have hlne : l ≠ [] := by
          intro he
          rw [he] at hl
          exact hne hl
        have hj := joinLines_getLast? (keptLines f raw) l hl hlne
        rw [hj] at hcontra
        obtain ⟨ys, hys⟩ := List.getLast?_eq_some_iff.mp hl
        have hmem : l ∈ keptLines f raw := by
          rw [hys]
          simp
        have hmem2 : l ∈ survivingLines f raw := by
          unfold keptLines at hmem
          exact List.mem_of_mem_take hmem
        unfold survivingLines at hmem2
        obtain ⟨l0, _, hl0⟩ := List.mem_map.mp hmem2
        have hws := rustTrimEnd_getLast? l0 ('\n') (by rw [hl0]; exact hcontra)
        exact absurd hws (by decide)

/-- C10 witness: concrete instance of the amended theorem's universal
part, with the all-default filter and a one-line input. -/
theorem c10_witness :
    (applyFilter ⟨0, 0, [], []⟩ "ab".data).1.getLast? ≠ some ('\n') :=
  c10_trailing_newline_amended.1 ⟨0, 0, [], []⟩ "ab".data (by decide)

/-- C4: for a device whose configuration has no Filter Spec, `to_filter`
yields no filter, and a successful fetch returns the decoded standard
output of the expect script unchanged — the filter apply step is never
invoked (the result is the decoded text itself, and since UTF-8 decoding
is the identity on the underlying bytes, the returned text is
byte-for-byte the script's standard output). -/
theorem c4_no_filter_byte_identity (compile : List Char → Option Regex)
    (spawn : List Char → List (List Char) → SpawnResult)
    (decode : List Nat → Option (List Char)) (scripts_dir : List Char)
    (d : DeviceConfig) (hnf : d.filter_config = none) :
    to_filter compile d = .ok none ∧
    ∀ out err s, spawn (script_path scripts_dir d) (into_expect_args d) =
        .ran true out err → decode out = some s →
      into_filtered_dump compile spawn decode scripts_dir d = .ok s := by
  have hf : to_filter compile d = .ok none := by
    unfold to_filter
    rw [hnf]
  refine ⟨hf, ?_⟩
  intro out err s hspawn hdec
  simp [into_filtered_dump, hf, hspawn, hdec]

/-- C4 witness: concrete instance of `c4_no_filter_byte_identity` for
`plainDevice` with a successful script run. -/
theorem c4_witness :
    into_filtered_dump litCompile (fun _ _ => SpawnResult.ran true [104] [])
      (fun _ => some "raw".data) "sd".data plainDevice = .ok "raw".data :=
  (c4_no_filter_byte_identity litCompile
    (fun _ _ => SpawnResult.ran true [104] []) (fun _ => some "raw".data)
    "sd".data plainDevice rfl).2 [104] [] "raw".data rfl rfl

/-- C5: the argument list passed to the expect script is exactly `user`,
`password_file`, `host`, then — each included only when configured, in
this relative order — `kexalgorithm`, `cipher`, `hostkeyalgorithm`, then
all of `extra_expect_params` appended last in listed order. -/
theorem c5_expect_arg_order (d : DeviceConfig) :
    into_expect_args d =
      [d.user, d.password_file, d.host] ++ d.kexalgorithm.toList ++
        d.cipher.toList ++ d.hostkeyalgorithm.toList ++
        d.extra_expect_params := by
  obtain ⟨host, model, user, pf, cip, kex, hk, extra, fc⟩ := d
  cases kex <;> cases cip <;> cases hk <;>
    simp [into_expect_args, Option.toList]

/-- C6: with pattern compilation out of the way, the fetch fails with
`ScriptFailed` (carrying the script path and the captured standard error)
exactly when the script exits with a non-success status, fails with
`InvalidOutput` exactly when the captured standard output does not decode
as text, fails with `LaunchFailed` when the script cannot be spawned, and
on success returns the decoded standard output (filtered only when a
filter is configured). -/
theorem c6_fetch_error_cases (compile : List Char → Option Regex)
    (spawn : List Char → List (List Char) → SpawnResult)
    (decode : List Nat → Option (List Char)) (scripts_dir : List Char)
    (d : DeviceConfig) (mf : Option CompiledFilter)
    (hf : to_filter compile d = .ok mf) :
    (spawn (script_path scripts_dir d) (into_expect_args d) =
        .launchFailure →
      into_filtered_dump compile spawn decode scripts_dir d =
        .error (.LaunchFailed (script_path scripts_dir d))) ∧
    (∀ out err, spawn (script_path scripts_dir d) (into_expect_args d) =
        .ran false out err →
      into_filtered_dump compile spawn decode scripts_dir d =
        .error (.ScriptFailed (script_path scripts_dir d) err)) ∧
    (∀ out err, spawn (script_path scripts_dir d) (into_expect_args d) =
        .ran true out err → decode out = none →
      into_filtered_dump compile spawn decode scripts_dir d =
        .error .InvalidOutput) ∧
    (∀ out err s, spawn (script_path scripts_dir d) (into_expect_args d) =
        .ran true out err → decode out = some s →
      into_filtered_dump compile spawn decode scripts_dir d =
        .ok (match mf with
          | none => s
          | some cf => (applyFilter cf s).1)) ∧
    (∀ p st, into_filtered_dump compile spawn decode scripts_dir d =
        .error (.ScriptFailed p st) →
      p = script_path scripts_dir d ∧
        ∃ out, spawn (script_path scripts_dir d) (into_expect_args d) =
          .ran false out st) ∧
    (into_filtered_dump compile spawn decode scripts_dir d =
        .error .InvalidOutput →
      ∃ out err, spawn (script_path scripts_dir d) (into_expect_args d) =
        .ran true out err ∧ decode out = none) := by
  refine ⟨?_, ?_, ?_, ?_, ?_, ?_⟩
  · intro hspawn
    simp [into_filtered_dump, hf, hspawn]
  · intro out err hspawn
    simp [into_filtered_dump, hf, hspawn]
  · intro out err hspawn hdec
    simp [into_filtered_dump, hf, hspawn, hdec]
  · intro out err s hspawn hdec
    simp [into_filtered_dump, hf, hspawn, hdec]
    cases mf <;> rfl
  · intro p st hres
    simp only [into_filtered_dump, hf] at hres
    cases hs : spawn (script_path scripts_dir d) (into_expect_args d) with
    | launchFailure =>
        rw [hs] at hres
        simp at hres
    | ran ok out err =>
        rw [hs] at hres
        cases ok with
        | true =>
            simp at hres
            cases hd : decode out with
            | none =>
                rw [hd] at hres
                simp at hres
            | some s =>
                rw [hd] at hres
                simp at hres
        | false =>
            simp at hres
            obtain ⟨hp, hst⟩ := hres
            subst hp
            subst hst
            exact ⟨rfl, out, rfl⟩
  · intro hres
    simp only [into_filtered_dump, hf] at hres
    cases hs : spawn (script_path scripts_dir d) (into_expect_args d) with
    | launchFailure =>
        rw [hs] at hres
        simp at hres
    | ran ok out err =>
        rw [hs] at hres
        cases ok with
        | true =>
            simp at hres
            cases hd : decode out with
            | none => exact ⟨out, err, rfl, hd⟩
            | some s =>
                rw [hd] at hres
                simp at hres
        | false =>
            simp at hres

/-- C6 witness: concrete instance of `c6_fetch_error_cases` where the
script exits with a non-success status. -/
theorem c6_witness :
    into_filtered_dump litCompile (fun _ _ => SpawnResult.ran false [] [7])
      (fun _ => none) "sd".data plainDevice =
      .error (.ScriptFailed (script_path "sd".data plainDevice) [7]) :=
  ((c6_fetch_error_cases litCompile (fun _ _ => SpawnResult.ran false [] [7])
    (fun _ => none) "sd".data plainDevice none rfl).2.1) [] [7] rfl

lemma gitOk_exists {r : SpawnResult} (h : gitOk r = true) :
    ∃ out err, r = .ran true out err := by
  cases r with
  | launchFailure => simp [gitOk] at h
  | ran ok out err =>
      cases ok with
      | true => exact ⟨out, err, rfl⟩
      | false => simp [gitOk] at h

lemma git_subcommand_ok_gitOk (git : GitCmd → SpawnResult)
    (decode : List Nat → Option (List Char)) (subcmd workdir : List Char)
    (args : List (List Char)) (wo : Bool) (v : Option (List Char))
    (h : git_subcommand git decode subcmd workdir args wo = .ok v) :
    gitOk (git ⟨subcmd, workdir, args⟩) = true := by
  unfold git_subcommand at h
  cases hg : git ⟨subcmd, workdir, args⟩ with
  | launchFailure =>
      rw [hg] at h
      simp at h
  | ran ok out err =>
      rw [hg] at h
      cases ok with
      | true => rfl
      | false => simp at h

lemma git_subcommand_ok_of_gitOk (git : GitCmd → SpawnResult)
    (decode : List Nat → Option (List Char)) (subcmd workdir : List Char)
    (args : List (List Char))
    (h : gitOk (git ⟨subcmd, workdir, args⟩) = true) :
    git_subcommand git decode subcmd workdir args false = .ok none := by
  obtain ⟨out, err, hg⟩ := gitOk_exists h
  unfold git_subcommand
  rw [hg]
  rfl

lemma commitFiles_success (git : GitCmd → SpawnResult)
    (decode : List Nat → Option (List Char)) (sd : List Char)
    (hok : ∀ c, gitOk (git c) = true) :
    ∀ files, commitFiles git decode sd files =
      (files.flatMap (fun f => [addCmd sd f, commitCmd sd f]), .ok ())
  | [] => by simp [commitFiles]
  | f :: fs => by
      have hadd := git_subcommand_ok_of_gitOk git decode "add".data sd [f]
        (hok _)
      have hcom := git_subcommand_ok_of_gitOk git decode "commit".data sd
        ["--message".data, "Update ".data ++ f] (hok _)
      have ih := commitFiles_success git decode sd hok fs
      simp only [commitFiles, hadd, hcom, ih]
      simp [List.flatMap_cons]

lemma commitFiles_subcmds (git : GitCmd → SpawnResult)
    (decode : List Nat → Option (List Char)) (sd : List Char) :
    ∀ files c, c ∈ (commitFiles git decode sd files).1 →
      c.subcmd = "add".data ∨ c.subcmd = "commit".data
  | [], c, h => by simp [commitFiles] at h
  | f :: fs, c, h => by
      simp only [commitFiles] at h
      cases h1 : git_subcommand git decode "add".data sd [f] false with
      | error e =>
          rw [h1] at h
          simp at h
          subst h
          left
          rfl
      | ok v =>
          rw [h1] at h
          cases h2 : git_subcommand git decode "commit".data sd
              ["--message".data, "Update ".data ++ f] false with
          | error e =>
              rw [h2] at h
              simp at h
              rcases h with h | h
              · subst h
                left
                rfl
              · subst h
                right
                rfl
          | ok w =>
              rw [h2] at h
              simp at h
              rcases h with h | h | h
              · subst h
                left
                rfl
              · subst h
                right
                rfl
              · exact commitFiles_subcmds git decode sd fs c h

lemma commitFiles_cons_add_err (git : GitCmd → SpawnResult)
    (decode : List Nat → Option (List Char)) (sd f : List Char)
    (fs : List (List Char)) (e : GitError)
    (h1 : git_subcommand git decode "add".data sd [f] false = .error e) :
    commitFiles git decode sd (f :: fs) = ([addCmd sd f], .error e) := by
  simp only [commitFiles, h1]

lemma commitFiles_cons_commit_err (git : GitCmd → SpawnResult)
    (decode : List Nat → Option (List Char)) (sd f : List Char)
    (fs : List (List Char)) (v : Option (List Char)) (e : GitError)
    (h1 : git_subcommand git decode "add".data sd [f] false = .ok v)
    (h2 : git_subcommand git decode "commit".data sd
      ["--message".data, "Update ".data ++ f] false = .error e) :
    commitFiles git decode sd (f :: fs) =
      ([addCmd sd f, commitCmd sd f], .error e) := by
  simp only [commitFiles, h1, h2]

lemma commitFiles_cons_ok (git : GitCmd → SpawnResult)
    (decode : List Nat → Option (List Char)) (sd f : List Char)
    (fs : List (List Char)) (v w : Option (List Char))
    (h1 : git_subcommand git decode "add".data sd [f] false = .ok v)
    (h2 : git_subcommand git decode "commit".data sd
      ["--message".data, "Update ".data ++ f] false = .ok w) :
    commitFiles git decode sd (f :: fs) =
      (addCmd sd f :: commitCmd sd f :: (commitFiles git decode sd fs).1,
        (commitFiles git decode sd fs).2) := by
  simp only [commitFiles, h1, h2]

lemma commitFiles_fail_last (git : GitCmd → SpawnResult)
    (decode : List Nat → Option (List Char)) (sd : List Char) :
    ∀ files c, c ∈ (commitFiles git decode sd files).1 →
      gitOk (git c) = false →
      (commitFiles git decode sd files).1.getLast? = some c ∧
        exceptFailed (commitFiles git decode sd files).2 = true
  | [], c, h, _ => by simp [commitFiles] at h
  | f :: fs, c, h, hfail => by
      cases h1 : git_subcommand git decode "add".data sd [f] false with
      | error e =>
          rw [commitFiles_cons_add_err git decode sd f fs e h1] at h ⊢
          simp at h
          subst h
          exact ⟨rfl, rfl⟩
      | ok v =>
          have haddok : gitOk (git (addCmd sd f)) = true :=
            git_subcommand_ok_gitOk git decode "add".data sd [f] false v h1
          cases h2 : git_subcommand git decode "commit".data sd
              ["--message".data, "Update ".data ++ f] false with
          | error e =>
              rw [commitFiles_cons_commit_err git decode sd f fs v e h1 h2]
                at h ⊢
              simp at h
              rcases h with h | h
              · subst h
                rw [haddok] at hfail
                simp at hfail
              · subst h
                exact ⟨rfl, rfl⟩
          | ok w =>
              have hcomok : gitOk (git (commitCmd sd f)) = true :=
                git_subcommand_ok_gitOk git decode "commit".data sd
                  ["--message".data, "Update ".data ++ f] false w h2
              rw [commitFiles_cons_ok git decode sd f fs v w h1 h2] at h ⊢
              simp at h
              rcases h with h | h | h
              · subst h
                rw [haddok] at hfail
                simp at hfail
              · subst h
                rw [hcomok] at hfail
                simp at hfail
              · obtain ⟨ih1, ih2⟩ :=
                  commitFiles_fail_last git decode sd fs c h hfail
                refine ⟨?_, ih2⟩
                cases hq : (commitFiles git decode sd fs).1 with
                | nil =>
                    rw [hq] at ih1
                    simp at ih1
                | cons x xs =>
                    rw [hq] at ih1
                    show (addCmd sd f :: commitCmd sd f :: x :: xs).getLast? =
                      some c
                    rw [List.getLast?_cons_cons, List.getLast?_cons_cons]
                    exact ih1

lemma commitFiles_ok_all (git : GitCmd → SpawnResult)
    (decode : List Nat → Option (List Char)) (sd : List Char) :
    ∀ files, (commitFiles git decode sd files).2 = .ok () →
      ∀ c ∈ (commitFiles git decode sd files).1, gitOk (git c) = true
  | [], _, c, hc => by simp [commitFiles] at hc
  | f :: fs, hres, c, hc => by
      cases h1 : git_subcommand git decode "add".data sd [f] false with
      | error e =>
          rw [commitFiles_cons_add_err git decode sd f fs e h1] at hres
          simp at hres
      | ok v =>
          have haddok :=
            git_subcommand_ok_gitOk git decode "add".data sd [f] false v h1
          cases h2 : git_subcommand git decode "commit".data sd
              ["--message".data, "Update ".data ++ f] false with
          | error e =>
              rw [commitFiles_cons_commit_err git decode sd f fs v e h1 h2]
                at hres
              simp at hres
          | ok w =>
              have hcomok := git_subcommand_ok_gitOk git decode "commit".data
                sd ["--message".data, "Update ".data ++ f] false w h2
              rw [commitFiles_cons_ok git decode sd f fs v w h1 h2] at hres hc
              simp at hc
              rcases hc with hc | hc | hc
              · subst hc
                exact haddok
              · subst hc
                exact hcomok
              · exact commitFiles_ok_all git decode sd fs hres c hc

lemma pushPhase_err (git : GitCmd → SpawnResult)
    (decode : List Nat → Option (List Char)) (sd : List Char) (e : GitError)
    (h : git_subcommand git decode "push".data sd [] false = .error e) :
    pushPhase git decode sd false = ([pushCmd sd], .error e) := by
  simp only [pushPhase, Bool.false_eq_true, if_false, h]

lemma pushPhase_ran_ok (git : GitCmd → SpawnResult)
    (decode : List Nat → Option (List Char)) (sd : List Char)
    (w : Option (List Char))
    (h : git_subcommand git decode "push".data sd [] false = .ok w) :
    pushPhase git decode sd false = ([pushCmd sd], .ok ()) := by
  simp only [pushPhase, Bool.false_eq_true, if_false, h]

lemma pushPhase_success (git : GitCmd → SpawnResult)
    (decode : List Nat → Option (List Char)) (sd : List Char) (np : Bool)
    (hok : ∀ c, gitOk (git c) = true) :
    pushPhase git decode sd np =
      ((if np then [] else [pushCmd sd]), .ok ()) := by
  cases np with
  | true => rfl
  | false =>
      exact pushPhase_ran_ok git decode sd none
        (git_subcommand_ok_of_gitOk git decode "push".data sd [] (hok _))

lemma update_git_repo_ls_err (git : GitCmd → SpawnResult)
    (decode : List Nat → Option (List Char)) (sd : List Char) (np : Bool)
    (e : GitError)
    (h : git_subcommand git decode "ls-files".data sd lsArgs true =
      .error e) :
    update_git_repo git decode sd np = ([lsCmd sd], .error e) := by
  simp only [update_git_repo, h]

lemma update_git_repo_ls_none (git : GitCmd → SpawnResult)
    (decode : List Nat → Option (List Char)) (sd : List Char) (np : Bool)
    (h : git_subcommand git decode "ls-files".data sd lsArgs true =
      .ok none) :
    update_git_repo git decode sd np = ([lsCmd sd], .error .Impossible) := by
  simp only [update_git_repo, h]

lemma update_git_repo_commit_err (git : GitCmd → SpawnResult)
    (decode : List Nat → Option (List Char)) (sd : List Char) (np : Bool)
    (changed : List Char) (e : GitError)
    (h : git_subcommand git decode "ls-files".data sd lsArgs true =
      .ok (some changed))
    (h2 : (commitFiles git decode sd (rustLines changed)).2 = .error e) :
    update_git_repo git decode sd np =
      (lsCmd sd :: (commitFiles git decode sd (rustLines changed)).1,
        .error e) := by
  simp only [update_git_repo, h, h2]

lemma update_git_repo_commit_ok (git : GitCmd → SpawnResult)
    (decode : List Nat → Option (List Char)) (sd : List Char) (np : Bool)
    (changed : List Char)
    (h : git_subcommand git decode "ls-files".data sd lsArgs true =
      .ok (some changed))
    (h2 : (commitFiles git decode sd (rustLines changed)).2 = .ok ()) :
    update_git_repo git decode sd np =
      (lsCmd sd :: ((commitFiles git decode sd (rustLines changed)).1 ++
        (pushPhase git decode sd np).1), (pushPhase git decode sd np).2) := by
  simp only [update_git_repo, h, h2]

/-- C7: the Repo Committer stages each enumerated changed file and creates
exactly one commit per file with message `Update ` followed by the file
name, in enumeration order (first conjunct: when every git command
succeeds, the issued command trace is exactly the enumeration command,
then an add/commit pair per file in order, then the optional push); when
pushing is suppressed no push command is ever issued (second conjunct);
and any git command that exits with failure aborts all subsequent
version-control steps immediately — a failing command is always the last
command issued and the whole commit phase fails (third conjunct). -/
theorem c7_commit_workflow :
    (∀ (git : GitCmd → SpawnResult) (decode : List Nat → Option (List Char))
        (sd : List Char) (np : Bool) (changed : List Char),
      (∀ c, gitOk (git c) = true) →
      (∀ out err, git (lsCmd sd) = .ran true out err →
        decode out = some changed) →
      update_git_repo git decode sd np =
        (lsCmd sd ::
          ((rustLines changed).flatMap
              (fun f => [addCmd sd f, commitCmd sd f]) ++
            (if np then [] else [pushCmd sd])), .ok ())) ∧
    (∀ (git : GitCmd → SpawnResult) (decode : List Nat → Option (List Char))
        (sd : List Char),
      ∀ c ∈ (update_git_repo git decode sd true).1,
        c.subcmd ≠ "push".data) ∧
    (∀ (git : GitCmd → SpawnResult) (decode : List Nat → Option (List Char))
        (sd : List Char) (np : Bool) (c : GitCmd),
      c ∈ (update_git_repo git decode sd np).1 → gitOk (git c) = false →
        (update_git_repo git decode sd np).1.getLast? = some c ∧
          exceptFailed (update_git_repo git decode sd np).2 = true) := by
  refine ⟨?_, ?_, ?_⟩
  · intro git decode sd np changed hok hdec
    obtain ⟨out, err, hg⟩ := gitOk_exists (hok (lsCmd sd))
    have hls : git_subcommand git decode "ls-files".data sd lsArgs true =
        .ok (some changed) := by
      unfold git_subcommand
      have hg2 : git ⟨"ls-files".data, sd, lsArgs⟩ =
          SpawnResult.ran true out err := hg
      rw [hg2]
      have hd := hdec out err hg
      simp [hd]
    have hcf := commitFiles_success git decode sd hok (rustLines changed)
    have hcf2 : (commitFiles git decode sd (rustLines changed)).2 =
        .ok () := by rw [hcf]
    rw [update_git_repo_commit_ok git decode sd np changed hls hcf2,
      pushPhase_success git decode sd np hok, hcf]
  · intro git decode sd c hc
    cases hls : git_subcommand git decode "ls-files".data sd lsArgs true with
    | error e =>
        rw [update_git_repo_ls_err git decode sd true e hls] at hc
        simp at hc
        subst hc
        exact (by decide : ("ls-files".data : List Char) ≠ "push".data)
    | ok v =>
        cases v with
        | none =>
            rw [update_git_repo_ls_none git decode sd true hls] at hc
            simp at hc
            subst hc
            exact (by decide : ("ls-files".data : List Char) ≠ "push".data)
        | some changed =>
            cases h2 : (commitFiles git decode sd (rustLines changed)).2 with
            | error e =>
                rw [update_git_repo_commit_err git decode sd true changed e
                  hls h2] at hc
                simp at hc
                rcases hc with hc | hc
                · subst hc
                  exact (by decide : ("ls-files".data : List Char) ≠ "push".data)
                · rcases commitFiles_subcmds git decode sd
                      (rustLines changed) c hc with h | h
                  · rw [h]
                    decide
                  · rw [h]
                    decide
            | ok u =>
                cases u
                rw [update_git_repo_commit_ok git decode sd true changed
                  hls h2] at hc
                have hpp : pushPhase git decode sd true = ([], .ok ()) := rfl
                rw [hpp] at hc
                simp at hc
                rcases hc with hc | hc
                · subst hc
                  exact (by decide : ("ls-files".data : List Char) ≠ "push".data)
                · rcases commitFiles_subcmds git decode sd
                      (rustLines changed) c hc with h | h
                  · rw [h]
                    decide
                  · rw [h]
                    decide
  · intro git decode sd np c hc hfail
    cases hls : git_subcommand git decode "ls-files".data sd lsArgs true with
    | error e =>
        rw [update_git_repo_ls_err git decode sd np e hls] at hc ⊢
        simp at hc
        subst hc
        exact ⟨rfl, rfl⟩
    | ok v =>
        cases v with
        | none =>
            rw [update_git_repo_ls_none git decode sd np hls] at hc ⊢
            simp at hc
            subst hc
            exact ⟨rfl, rfl⟩
        | some changed =>
            have hlsok : gitOk (git (lsCmd sd)) = true :=
              git_subcommand_ok_gitOk git decode "ls-files".data sd lsArgs
                true (some changed) hls
            cases h2 : (commitFiles git decode sd (rustLines changed)).2 with
            | error e =>
                rw [update_git_repo_commit_err git decode sd np changed e
                  hls h2] at hc ⊢
                simp at hc
                rcases hc with hc | hc
                · subst hc
                  rw [hlsok] at hfail
                  simp at hfail
                · obtain ⟨ih1, _⟩ := commitFiles_fail_last git decode sd
                    (rustLines changed) c hc hfail
                  refine ⟨?_, rfl⟩
                  cases hq : (commitFiles git decode sd
                      (rustLines changed)).1 with
                  | nil =>
                      rw [hq] at ih1
                      simp at ih1
                  | cons x xs =>
                      rw [hq] at ih1
                      show (lsCmd sd :: x :: xs).getLast? = some c
                      rw [List.getLast?_cons_cons]
                      exact ih1
            | ok u =>
                cases u
                have hcall := commitFiles_ok_all git decode sd
                  (rustLines changed) h2
                rw [update_git_repo_commit_ok git decode sd np changed
                  hls h2] at hc ⊢
                cases np with
                | true =>
                    have hpp : pushPhase git decode sd true =
                        ([], .ok ()) := rfl
                    rw [hpp] at hc
                    simp at hc
                    rcases hc with hc | hc
                    · subst hc
                      rw [hlsok] at hfail
                      simp at hfail
                    · rw [hcall c hc] at hfail
                      simp at hfail
                | false =>
                    cases hpr : git_subcommand git decode "push".data sd []
                        false with
                    | error e =>
                        rw [pushPhase_err git decode sd e hpr] at hc ⊢
                        simp at hc
                        rcases hc with hc | hc | hc
                        · subst hc
                          rw [hlsok] at hfail
                          simp at hfail
                        · rw [hcall c hc] at hfail
                          simp at hfail
                        · subst hc
                          refine ⟨?_, rfl⟩
                          show (lsCmd sd ::
                            ((commitFiles git decode sd
                              (rustLines changed)).1 ++
                              [pushCmd sd])).getLast? = some (pushCmd sd)
                          rw [show lsCmd sd ::
                              ((commitFiles git decode sd
                                (rustLines changed)).1 ++ [pushCmd sd]) =
                              (lsCmd sd :: (commitFiles git decode sd
                                (rustLines changed)).1) ++ [pushCmd sd]
                            from by simp]
                          exact List.getLast?_concat _
                    | ok w =>
                        have hpok : gitOk (git (pushCmd sd)) = true :=
                          git_subcommand_ok_gitOk git decode "push".data sd
                            [] false w hpr
                        rw [pushPhase_ran_ok git decode sd w hpr] at hc
                        simp at hc
                        rcases hc with hc | hc | hc
                        · subst hc
                          rw [hlsok] at hfail
                          simp at hfail
                        · rw [hcall c hc] at hfail
                          simp at hfail
                        · subst hc
                          rw [hpok] at hfail
                          simp at hfail

/-- C7 witness: concrete instance of the first conjunct of
`c7_commit_workflow`, with an oracle on which every git command succeeds
and a one-file change enumeration. -/
theorem c7_witness :
    update_git_repo (fun _ => SpawnResult.ran true [102] [])
      (fun _ => some "f1".data) "s".data true =
      (lsCmd "s".data ::
        ((rustLines "f1".data).flatMap
            (fun f => [addCmd "s".data f, commitCmd "s".data f]) ++
          (if true then [] else [pushCmd "s".data])), .ok ()) :=
  c7_commit_workflow.1 (fun _ => SpawnResult.ran true [102] [])
    (fun _ => some "f1".data) "s".data true "f1".data (fun _ => rfl)
    (fun _ _ _ => rfl)

/-- C8: after all fetch units have finished, the commit phase is always
attempted — the git command trace of the whole run equals the trace of
`update_git_repo`, whatever the per-device results were — and the process
exit status is a failure exactly when the commit phase failed or some
device's fetch unit failed (device failures are reflected in the exit
status even when the commit phase succeeds). -/
theorem c8_exit_status (devres : List (Except UnitError (List Char)))
    (git : GitCmd → SpawnResult) (decode : List Nat → Option (List Char))
    (sd : List Char) (np : Bool) :
    (runMain devres git decode sd np).1 =
      (update_git_repo git decode sd np).1 ∧
    ((runMain devres git decode sd np).2 = false ↔
      (exceptFailed (update_git_repo git decode sd np).2 = true ∨
        anyFailed devres = true)) := by
  simp only [runMain]
  cases hg : (update_git_repo git decode sd np).2 with
  | error e => simp [exceptFailed]
  | ok u =>
      cases u
      simp [exceptFailed]

/-- C9 (implicit): a per-device fetch unit whose state-directory existence
check reports that the directory is missing fails with a per-device error
without ever invoking the expect script (the script-invoked flag is
`false`); and such failures are local to the unit — the commit phase of
the run is the same whatever the per-device results were, so a device
failure is not fatal to the run. -/
theorem c9_state_dir_guard :
    (∀ (sd : List Char) (dump : Except FetchError (List Char)) (w : Bool),
      update_device_config_file (some false) sd dump w =
        (false, .error (.StateDirMissing sd))) ∧
    (∀ (devres : List (Except UnitError (List Char)))
        (git : GitCmd → SpawnResult)
        (decode : List Nat → Option (List Char)) (sd : List Char)
        (np : Bool),
      (runMain devres git decode sd np).1 =
        (runMain [] git decode sd np).1) := by
  constructor
  · intro sd dump w
    rfl
  · intro devres git decode sd np
    simp only [runMain]
    cases hg : (update_git_repo git decode sd np).2 <;> rfl


end Rusted
